import Mathlib

/-!
Verification of the documentation tooling of the repository: every Python
source file is shallowly embedded as pure functions over `List Char`
(strings), with file I/O pushed to the boundary (file contents are
arguments, written contents are results, exceptions become `Option`).
-/

namespace LeptosUseDocs

/-- The line-boundary characters recognised by Python `str.splitlines`. -/
def isLineBreak (c : Char) : Bool :=
  c = '\n' || c = '\r' || c = Char.ofNat 0x0b || c = Char.ofNat 0x0c ||
  c = Char.ofNat 0x1c || c = Char.ofNat 0x1d || c = Char.ofNat 0x1e ||
  c = Char.ofNat 0x85 || c = Char.ofNat 0x2028 || c = Char.ofNat 0x2029

/-- ASCII whitespace recognised by Python `str.strip` / `\s`. -/
def isPyWs (c : Char) : Bool :=
  c = ' ' || c = '\t' || c = '\n' || c = '\r' ||
  c = Char.ofNat 0x0b || c = Char.ofNat 0x0c

/-- Worker for `splitLines`: `acc` holds the current line reversed.
Mirrors Python `str.splitlines` (a `\r\n` pair is one boundary; a trailing
boundary does not produce an extra empty line). -/
def slGo (acc : List Char) : List Char → List (List Char)
  | [] => [acc.reverse]
  | [c] => if isLineBreak c then [acc.reverse] else [(c :: acc).reverse]
  | c :: d :: cs =>
    if c = '\r' ∧ d = '\n' then
      acc.reverse :: (if cs.isEmpty then [] else slGo [] cs)
    else if isLineBreak c then acc.reverse :: slGo [] (d :: cs)
    else slGo (c :: acc) (d :: cs)

/-- Python `str.splitlines` (on the empty string it returns `[]`). -/
def splitLines (l : List Char) : List (List Char) :=
  if l.isEmpty then [] else slGo [] l

/-- Python `"\n".join(lines)`. -/
def joinNL : List (List Char) → List Char
  | [] => []
  | [l] => l
  | l :: ls => l ++ '\n' :: joinNL ls

/-- Fueled worker for `replaceAll`; the fuel is an upper bound on the
length of the remaining input, so it never runs out on the wrapper call. -/
def replaceAllGo (p r : List Char) : Nat → List Char → List Char
  | _, [] => []
  | 0, l => l
  | fuel + 1, c :: cs =>
    if p.isPrefixOf (c :: cs) && !p.isEmpty then
      r ++ replaceAllGo p r fuel ((c :: cs).drop p.length)
    else
      c :: replaceAllGo p r fuel cs

/-- Python `str.replace(p, r)` for a non-empty pattern `p`: replace every
occurrence of `p`, scanning left to right without rescanning `r`. -/
def replaceAll (p r l : List Char) : List Char :=
  replaceAllGo p r l.length l

/-- Matching of an interpolated version string used inside the regexes of
`docs/add_version_to_docs.py`.  Version strings are digits-and-dots
literals; inside a regex the dot is a wildcard, every other character is
literal.  Returns the rest of the input after the match. -/
def matchPat : List Char → List Char → Option (List Char)
  | [], rest => some rest
  | _ :: _, [] => none
  | p :: ps, c :: cs => if p = '.' ∨ p = c then matchPat ps cs else none

/-- After the first `|` of the last row: the regex tail `" {leptos_version}"`. -/
def rowTail (lept : List Char) (l : List Char) : Bool :=
  match l with
  | c :: rest => if c = ' ' then (matchPat lept rest).isSome else false
  | [] => false

/-- Scan for the first `|` (the regex `[^|]+\|` forces it) and check the tail. -/
def rowScan (lept : List Char) : List Char → Bool
  | [] => false
  | c :: rest => if c = '|' then rowTail lept rest else rowScan lept rest

/-- `re.search(rf"^\|[^|]+\| {leptos_version}", line)` of
`add_to_compat_table`: the line starts with `|`, has at least one
non-`|` character, then `|`, a space and the leptos version. -/
def rowMatches (lept : List Char) (line : List Char) : Bool :=
  match line with
  | c0 :: c1 :: rest => c0 = '|' && !(c1 = '|') && rowScan lept (c1 :: rest)
  | _ => false

/-- The part of `re.search(rf"^\| .*? {crate}\s*\| {lept}", row)` after
`"| "` and the lazy gap and the literal space: crate version, then `\s*`,
then `| `, then the leptos version. -/
def pairTail (crate lept : List Char) (l : List Char) : Bool :=
  match matchPat crate l with
  | some r1 =>
    match r1.dropWhile isPyWs with
    | c :: d :: r2 => c = '|' && d = ' ' && (matchPat lept r2).isSome
    | _ => false
  | none => false

/-- The lazy gap `.*?` followed by a space: try every split point. -/
def pairScan (crate lept : List Char) : List Char → Bool
  | [] => false
  | c :: rest => (if c = ' ' then pairTail crate lept rest else false) || pairScan crate lept rest

/-- `re.search(rf"^\| .*? {crate_version}\s*\| {leptos_version}", row)`:
the check that a row already records the version pair. -/
def rowHasPair (crate lept : List Char) (row : List Char) : Bool :=
  match row with
  | c0 :: c1 :: rest => c0 = '|' && c1 = ' ' && pairScan crate lept rest
  | _ => false

/-- Python `row.index("|", 1)`: position of the first `|` at index ≥ 1
(`none` models the `ValueError`). -/
def idxPipeFrom (i : Nat) : List Char → Option Nat
  | [] => none
  | c :: cs => if c = '|' then some i else idxPipeFrom (i + 1) cs

def idxPipeFrom1 (row : List Char) : Option Nat :=
  match row with
  | [] => none
  | _ :: rest => idxPipeFrom 1 rest

/-- The `while index > 2 and table_row[index-1] == " ": index -= 1` loop. -/
def backOverSpaces (row : List Char) : Nat → Nat
  | 0 => 0
  | i + 1 =>
    if 2 < i + 1 && (row.get? i == some ' ') then backOverSpaces row i else i + 1

/-- `add_to_compat_table(leptos_version, crate_version, original_text)` of
`docs/add_version_to_docs.py`.  `none` models the `IndexError` on
`lines[-1]` (empty file) and the `ValueError` of `str.index`. -/
def add_to_compat_table (lept crate x : List Char) : Option (List Char) :=
  let lines := splitLines x
  match lines.getLast? with
  | none => none
  | some lastRow =>
    if rowMatches lept lastRow then
      if rowHasPair crate lept lastRow then some x
      else
        match idxPipeFrom1 lastRow with
        | none => none
        | some idx =>
          let i := backOverSpaces lastRow idx
          let newRow := lastRow.take i ++ ',' :: ' ' :: crate ++ lastRow.drop i
          some (joinNL (lines.dropLast ++ [newRow]) ++ ['\n'])
    else
      some (joinNL (lines ++ [['|', ' '] ++ crate ++ [' ', '|', ' '] ++ lept ++ [' ', '|']]) ++ ['\n'])

/-- The literal replaced by `replace_in_changelog`. -/
def unreleasedMarker : List Char := "## [Unreleased] -".toList

/-- The replacement heading `## [{crate_version}] - {today}`. -/
def stampHeading (v d : List Char) : List Char :=
  "## [".toList ++ v ++ "] - ".toList ++ d

/-- `replace_in_changelog(crate_version, original_text)`; the current date
is passed in as `d`. -/
def replace_in_changelog (v d x : List Char) : List Char :=
  replaceAll unreleasedMarker (stampHeading v d) x

/-- The two CLI modes of `docs/add_version_to_docs.py`: no argument
(apply, rewrite in place) or `--check`. -/
inductive Mode
  | apply
  | check
deriving DecidableEq

/-- Outcome of one run of `main`: the process exit code and the list of
`(path, content)` writes performed. -/
structure RunResult where
  exitCode : Nat
  writes : List (List Char × List Char)
deriving DecidableEq

def readmePath : List Char := "README.md".toList

def changelogPath : List Char := "CHANGELOG.md".toList

/-- `main()` of `docs/add_version_to_docs.py` as a pure function of the
parsed versions, today's date and the two file contents.  In `--check`
mode `quit(1)` aborts before the changelog is even examined; files are
written only when no CLI argument is given.  `none` models an uncaught
exception inside `add_to_compat_table`. -/
def runMain (mode : Mode) (lept crateShort crateLong date readme changelog : List Char) :
    Option RunResult :=
  match add_to_compat_table lept crateShort readme with
  | none => none
  | some t1 =>
    match mode with
    | .check =>
      if t1 ≠ readme then some ⟨1, []⟩
      else if replace_in_changelog crateLong date changelog ≠ changelog then some ⟨1, []⟩
      else some ⟨0, []⟩
    | .apply =>
      some ⟨0, [(readmePath, t1),
                (changelogPath, replace_in_changelog crateLong date changelog)]⟩

/-! ### docs/book/post_build.py -/

/-- Fueled worker for `pySplit` (fuel bounds the input length). -/
def pySplitGo (sep : List Char) : Nat → List Char → List (List Char)
  | _, [] => [[]]
  | 0, l => [l]
  | fuel + 1, c :: cs =>
    if sep.isPrefixOf (c :: cs) && !sep.isEmpty then
      [] :: pySplitGo sep fuel ((c :: cs).drop sep.length)
    else
      match pySplitGo sep fuel cs with
      | [] => [[c]]
      | t :: ts => (c :: t) :: ts

/-- Python `str.split(sep)` for a non-empty separator. -/
def pySplit (sep l : List Char) : List (List Char) :=
  pySplitGo sep l.length l

/-- Python `str.split(sep, 1)` (at most one split); the second component
is `none` when the separator does not occur. -/
def pySplit1Go (sep : List Char) : Nat → List Char → List Char × Option (List Char)
  | _, [] => ([], none)
  | 0, l => (l, none)
  | fuel + 1, c :: cs =>
    if sep.isPrefixOf (c :: cs) && !sep.isEmpty then
      ([], some ((c :: cs).drop sep.length))
    else
      let p := pySplit1Go sep fuel cs
      (c :: p.1, p.2)

def pySplit1 (sep l : List Char) : List Char × Option (List Char) :=
  pySplit1Go sep l.length l

/-- Length of a match of the regex `<body[^>]*>` at the head of `l`
(the body-open tag of the book page, attributes allowed). -/
def bodyTagMatchLen (l : List Char) : Option Nat :=
  match l with
  | c1 :: c2 :: c3 :: c4 :: c5 :: rest =>
    if c1 = '<' ∧ c2 = 'b' ∧ c3 = 'o' ∧ c4 = 'd' ∧ c5 = 'y' then
      let inner := rest.takeWhile (· != '>')
      match rest.drop inner.length with
      | _ :: _ => some (5 + inner.length + 1)
      | [] => none
    else none
  | _ => none

/-- Fueled worker for `re.split("<body[^>]*>", html)`. -/
def reSplitBodyGo : Nat → List Char → List (List Char)
  | _, [] => [[]]
  | 0, l => [l]
  | fuel + 1, c :: cs =>
    match bodyTagMatchLen (c :: cs) with
    | some n => [] :: reSplitBodyGo fuel ((c :: cs).drop n)
    | none =>
      match reSplitBodyGo fuel cs with
      | [] => [[c]]
      | t :: ts => (c :: t) :: ts

/-- `re.split("<body[^>]*>", html)`. -/
def reSplitBody (l : List Char) : List (List Char) :=
  reSplitBodyGo l.length l

/-- Python `s.split(sep)[0]`: the text before the first occurrence. -/
def beforeFirst (sep l : List Char) : List Char :=
  (pySplit sep l).headD []

/-- The demo `index.html` link rewrite
`html.replace("/demo", f"./{name}/demo")` of `build_and_copy_demo`. -/
def rewriteDemoLinks (name html : List Char) : List Char :=
  replaceAll "/demo".toList ("./".toList ++ name ++ "/demo".toList) html

/-- The demo document's head fragment:
`html.split("<head>")[1].split("</head>")[0]`. -/
def demoHeadFragment (html : List Char) : Option (List Char) :=
  (pySplit "<head>".toList html).get? 1 |>.map (beforeFirst "</head>".toList)

/-- The demo document's body fragment:
`html.split("<body>")[1].split("</body>")[0]` (bare `<body>` only). -/
def demoBodyFragment (html : List Char) : Option (List Char) :=
  (pySplit "<body>".toList html).get? 1 |>.map (beforeFirst "</body>".toList)

/-- The book page's body fragment:
`re.split("<body[^>]*>", html)[1].split("</body>")[0]`. -/
def bookBodyFragment (html : List Char) : Option (List Char) :=
  (reSplitBody html).get? 1 |>.map (beforeFirst "</body>".toList)

/-- The head/body merge of `build_and_copy_demo` (lines 44-63 of
`post_build.py`): `demoHtml` is the demo `index.html` content after the
`/demo` link rewrite, `bookHtml` the already rendered book page.  `none`
models the `IndexError` when a needed tag is missing. -/
def splice (demoHtml bookHtml : List Char) : Option (List Char) := do
  let dh ← (pySplit "<head>".toList demoHtml).get? 1
  let demoHead := beforeFirst "</head>".toList dh
  let db ← (pySplit "<body>".toList demoHtml).get? 1
  let demoBody := beforeFirst "</body>".toList db
  let headSplit0 := (pySplit "<head>".toList bookHtml).headD []
  let hs1 ← (pySplit "<head>".toList bookHtml).get? 1
  let targetHead := beforeFirst "</head>".toList hs1
  let bs1 ← (reSplitBody bookHtml).get? 1
  let bodySplit := pySplit "</body>".toList bs1
  let targetBody := bodySplit.headD []
  let afterBody ← bodySplit.get? 1
  pure (headSplit0 ++ " \n<head>\n    ".toList ++ demoHead ++ "\n    ".toList ++
        targetHead ++ "\n</head>\n<body>\n    ".toList ++ demoBody ++ "\n    ".toList ++
        targetBody ++ "\n</body>\n".toList ++ afterBody)

/-! ### docs/book/src/extract_doc_comment.py -/

/-- Python `str.strip()`. -/
def pyStrip (l : List Char) : List Char :=
  ((l.dropWhile isPyWs).reverse.dropWhile isPyWs).reverse

/-- `stripped_line.startswith("[Link to Demo](https://")` of `process_line`. -/
def isDemoLinkLine (line : List Char) : Bool :=
  "[Link to Demo](https://".toList.isPrefixOf (pyStrip line)

/-- Try the regex `\[`([^]]+)\`](?!\()` at the head of `l`; on success
returns the capture and the rest of the input after the match
(the lookahead consumes nothing). -/
def tryMatch (l : List Char) : Option (List Char × List Char) :=
  match l with
  | c1 :: c2 :: rest =>
    if c1 = '[' ∧ c2 = '`' then
      let pre := rest.takeWhile (· != ']')
      match rest.drop pre.length with
      | _ :: after =>
        if 2 ≤ pre.length ∧ pre.getLast? = some '`' ∧ after.head? ≠ some '(' then
          some (pre.dropLast, after)
        else none
      | [] => none
    else none
  | _ => none

/-- The module URL segment: Python interpolates `f"/{module}"` for a
present module and the string `"None"` for an absent one (the f-string
renders `None` verbatim). -/
def modSeg : Option (List Char) → List Char
  | some m => '/' :: m
  | none => "None".toList

def docsBase : List Char := "https://docs.rs/leptos-use/latest/leptos_use".toList

/-- The replacement template of the `re.sub` in `process_line`. -/
def linkOf (mod : Option (List Char)) (x : List Char) : List Char :=
  "[`".toList ++ x ++ "`](".toList ++ docsBase ++ modSeg mod ++ "/fn.".toList ++ x ++ ".html)".toList

/-- Fueled worker for the `re.sub` over one line. -/
def subLinksGo (mod : Option (List Char)) : Nat → List Char → List Char
  | _, [] => []
  | 0, l => l
  | fuel + 1, c :: cs =>
    match tryMatch (c :: cs) with
    | some (x, rest) => linkOf mod x ++ subLinksGo mod fuel rest
    | none => c :: subLinksGo mod fuel cs

/-- `re.sub(internal_doc_link_pattern, ..., line)`: rewrite every
occurrence of the internal doc-link pattern. -/
def subLinks (mod : Option (List Char)) (line : List Char) : List Char :=
  subLinksGo mod line.length line

/-- No position of the line matches the internal doc-link pattern. -/
def noLinkOcc : List Char → Bool
  | [] => true
  | c :: cs => (tryMatch (c :: cs)).isNone && noLinkOcc cs

/-- The fixed HTML block substituted for a demo-link line. -/
def demoBlock (exampleLink : List Char) : List Char :=
  "<div class=\"demo-container\">\n    <a class=\"demo-source\" href=\"".toList ++
  exampleLink ++
  "/src/main.rs\" target=\"_blank\">source <i class=\"fa fa-github\"></i></a>\n    <div id=\"demo-anchor\"></div>\n</div>".toList

/-- `process_line(line, name, module)` (the `name` argument is unused by
the source function's body). -/
def process_line (mod : Option (List Char)) (line : List Char) : List Char :=
  if isDemoLinkLine line then
    demoBlock (replaceAll ")".toList [] (replaceAll "[Link to Demo](".toList [] (pyStrip line)))
  else
    subLinks mod line

/-- Substring test: does `p` occur inside `l`? (Python `p in l`.) -/
def hasSub (p : List Char) : List Char → Bool
  | [] => p.isEmpty
  | c :: cs => p.isPrefixOf (c :: cs) || hasSub p cs

def fence3 : List Char := "```".toList

def fenceIgnore : List Char := "```rust,ignore".toList

/-- The fence handling of `main` (lines 58-61 of
`extract_doc_comment.py`): given the in-code-block state and a line,
produce the next state and the emitted line. -/
def fenceStep (st : Bool) (line : List Char) : Bool × List Char :=
  if hasSub fence3 line then
    (!st, if st then line else replaceAll fence3 fenceIgnore line)
  else (st, line)

/-- Run `fenceStep` over a block of lines, returning the final state, the
output lines, the number of ignore-tagged opening fences and the number
of closing fences consumed. -/
def fenceFold (st : Bool) : List (List Char) → Bool × List (List Char) × Nat × Nat
  | [] => (st, [], 0, 0)
  | l :: ls =>
    let p := fenceStep st l
    let q := fenceFold p.1 ls
    (q.1, p.2 :: q.2.1,
     q.2.2.1 + (if p.1 && !st then 1 else 0),
     q.2.2.2 + (if st && !p.1 then 1 else 0))

/-! ### template/modify_files.py -/

/-- Python string `<=` (lexicographic by code point), as used by
`list.sort()` on strings. -/
def lexLe : List Char → List Char → Bool
  | [], _ => true
  | _ :: _, [] => false
  | a :: as_, b :: bs => if a = b then lexLe as_ bs else decide (a < b)

/-- Insert into a lexicographically sorted list of strings. -/
def insSorted (x : List Char) : List (List Char) → List (List Char)
  | [] => [x]
  | y :: ys => if lexLe x y then x :: y :: ys else y :: insSorted x ys

/-- Python `list.sort()` on a list of strings (insertion sort; since
string comparison is antisymmetric the sorted output is unique). -/
def pySort (l : List (List Char)) : List (List Char) :=
  l.foldr insSorted []

/-- Python `list.insert(i, x)`: insert before index `i`, clamping to the
end when the list is shorter than `i`. -/
def pyInsert (i : Nat) (x : α) (l : List α) : List α :=
  l.take i ++ x :: l.drop i

/-- Case-insensitive match of the category followed by the literal
`"\n\n"` at the head of the input (the `re.IGNORECASE` flag of
`modify_summarymd` only affects the interpolated category). -/
def ciPrefixNN : List Char → List Char → Bool
  | [], l =>
    match l with
    | c1 :: c2 :: _ => c1 = '\n' && c2 = '\n'
    | _ => false
  | _ :: _, [] => false
  | p :: ps, c :: cs => p.toLower = c.toLower && ciPrefixNN ps cs

/-- Length of a match of `rf"# @?{category}\n\n"` (IGNORECASE) at the
head of the input (greedy `@?` with backtracking). -/
def headingMatchLen (cat : List Char) (l : List Char) : Option Nat :=
  match l with
  | c1 :: c2 :: rest =>
    if c1 = '#' ∧ c2 = ' ' then
      match rest with
      | c3 :: rest2 =>
        if c3 = '@' ∧ ciPrefixNN cat rest2 then some (3 + cat.length + 2)
        else if ciPrefixNN cat rest then some (2 + cat.length + 2)
        else none
      | [] => none
    else none
  | _ => none

/-- `re.search` for the category heading: position just after the first
match (`m.end()`), scanning left to right. -/
def searchHeadingGo (cat : List Char) (pos : Nat) : List Char → Option Nat
  | [] => none
  | c :: cs =>
    match headingMatchLen cat (c :: cs) with
    | some n => some (pos + n)
    | none => searchHeadingGo cat (pos + 1) cs

/-- `modify_summarymd(args)` as a pure text transform on the content of
`docs/book/src/SUMMARY.md`; `none` models the category-not-found branch
(which only prints a message and writes nothing). -/
def modify_summarymd (functionName cat src : List Char) : Option (List Char) :=
  match searchHeadingGo cat 0 src with
  | none => none
  | some e =>
    let functionLink := "- [".toList ++ functionName ++ "](".toList ++ cat ++
      "/".toList ++ functionName ++ ".md)".toList
    let tail := src.drop e
    let parts := pySplit1 "\n# ".toList tail
    let after :=
      match parts.2 with
      | some p2 => "\n# ".toList ++ p2
      | none => []
    let functions := (splitLines parts.1).filter (fun x => !(pyStrip x).isEmpty)
    let sorted := pySort (functions ++ [functionLink])
    some (src.take e ++ joinNL sorted ++ '\n' :: after)

/-- `modify_workspace(args)` as a pure transform on `examples/Cargo.toml`;
`none` models the `ValueError` of the 2-element unpacking when the
`members = [` marker is absent. -/
def modify_workspace (functionName config : List Char) : Option (List Char) :=
  let parts := pySplit1 "members = [\n".toList config
  match parts.2 with
  | none => none
  | some afterMembers =>
    let parts2 := pySplit1 "]".toList afterMembers
    let membersText := parts2.1
    let after := (parts2.2).getD []
    let members := splitLines membersText ++ ["    \"".toList ++ functionName ++ "\",".toList]
    some (parts.1 ++ "members = [\n".toList ++ joinNL (pySort members) ++ "\n]".toList ++ after)

/-- The first loop of `modify_changelog`: does some line start with
`"## [Unreleased"`? -/
def hasUnreleased (lines : List (List Char)) : Bool :=
  lines.any (fun l => "## [Unreleased".toList.isPrefixOf l)

/-- The second loop of `modify_changelog`: a line starting with
`"### New Functions"` occurs before the first released-version heading. -/
def hasNewFunctions : List (List Char) → Bool
  | [] => false
  | l :: ls =>
    if "### New Functions".toList.isPrefixOf l then true
    else if "## [".toList.isPrefixOf l && !("## [Unreleased".toList.isPrefixOf l) then false
    else hasNewFunctions ls

/-- The bullet line `f"- \x7b{args.function_name}\x7d\n"` inserted by
`modify_changelog` (backquoted function name). -/
def changelogBullet (functionName : List Char) : List Char :=
  "- `".toList ++ functionName ++ "`\n".toList

/-- `modify_changelog(args)` on the `readlines()` decomposition of
`CHANGELOG.md` (lines keep their trailing newline); the result is the
list of lines whose concatenation is written back. -/
def modify_changelog (functionName : List Char) (source : List (List Char)) : List (List Char) :=
  let s1 :=
    if hasUnreleased source then source
    else pyInsert 6 "\n".toList (pyInsert 5 "## [Unreleased] - \n".toList source)
  let s2 :=
    if hasNewFunctions s1 then s1
    else pyInsert 9 "\n".toList (pyInsert 8 "\n".toList (pyInsert 7 "### New Functions 🚀\n".toList s1))
  pyInsert 9 (changelogBullet functionName) s2

/-! ### Auxiliary decidable side conditions -/

/-- No non-empty suffix of `u` is a prefix of `w` (decidable form used as
a hypothesis about concrete marker/replacement strings). -/
def suffPrefFree (u w : List Char) : Bool :=
  (List.range u.length).all fun i => !((u.drop i).isPrefixOf w)

/-- The line contains no `str.splitlines` boundary character. -/
def breakFreeLine (l : List Char) : Bool :=
  l.all fun c => !isLineBreak c

/-! ## Helper lemmas -/

theorem hasSub_of_occurs {p l : List Char} (h : p <:+: l) : hasSub p l = true := by
  induction l with
  | nil =>
    rcases h with ⟨s, t, hst⟩
    have hp : p = [] := (List.append_eq_nil.mp (List.append_eq_nil.mp hst).1).2
    simp [hasSub, hp]
  | cons c cs ih =>
    rcases h with ⟨s, t, hst⟩
    cases s with
    | nil =>
      have hpre : p <+: c :: cs := ⟨t, by simpa using hst⟩
      simp [hasSub, List.isPrefixOf_iff_prefix.mpr hpre]
    | cons a s' =>
      have : p <:+: cs := ⟨s', t, by simpa using congrArg List.tail hst⟩
      simp [hasSub, ih this]

theorem suffPrefFree_spec {u w : List Char} (h : suffPrefFree u w = true) :
    ∀ s, s <:+ u → s ≠ [] → ¬ s <+: w := by
  intro s hsuf hne hpre
  have hlen : s.length ≤ u.length := hsuf.length_le
  have hpos : 0 < s.length := List.length_pos.mpr hne
  have hdrop : s = u.drop (u.length - s.length) := List.suffix_iff_eq_drop.mp hsuf
  have hi : u.length - s.length < u.length := by omega
  have := (List.all_eq_true.mp h) _ (List.mem_range.mpr hi)
  rw [← hdrop] at this
  simp [List.isPrefixOf_iff_prefix.mpr hpre] at this

theorem prefix_of_prefix_append_left {s r z : List Char} (h : s <+: r ++ z)
    (hlen : s.length ≤ r.length) : s <+: r := by
  have := List.prefix_iff_eq_take.mp h
  rw [List.take_append_of_le_length hlen] at this
  exact List.prefix_iff_eq_take.mpr this

theorem suffix_append_split {t r z : List Char} (h : t <:+ r ++ z) :
    t <:+ z ∨ ∃ s, s <:+ r ∧ t = s ++ z := by
  have hlen : t.length ≤ r.length + z.length := by
    simpa using h.length_le
  by_cases hz : t.length ≤ z.length
  · left
    have := List.suffix_iff_eq_drop.mp h
    rw [List.length_append] at this
    have hk : r.length + z.length - t.length = r.length + (z.length - t.length) := by omega
    rw [hk, List.drop_append] at this
    rw [this]
    exact List.drop_suffix _ _
  · right
    have := List.suffix_iff_eq_drop.mp h
    rw [List.length_append] at this
    have hk : r.length + z.length - t.length ≤ r.length := by omega
    rw [List.drop_append_of_le_length hk] at this
    exact ⟨_, List.drop_suffix _ _, this⟩

/-! ### replaceAll: fuel irrelevance and rewriting steps -/

theorem replaceAllGo_nil (p r : List Char) (fuel : Nat) :
    replaceAllGo p r fuel [] = [] := by
  cases fuel <;> rfl

theorem replaceAllGo_fuel (p r : List Char) :
    ∀ fuel₁ fuel₂ l, l.length ≤ fuel₁ → l.length ≤ fuel₂ →
      replaceAllGo p r fuel₁ l = replaceAllGo p r fuel₂ l := by
  intro fuel₁
  induction fuel₁ with
  | zero =>
    intro fuel₂ l h1 _
    rw [List.length_eq_zero.mp (Nat.le_zero.mp h1), replaceAllGo_nil, replaceAllGo_nil]
  | succ f ih =>
    intro fuel₂ l h1 h2
    cases l with
    | nil => rw [replaceAllGo_nil, replaceAllGo_nil]
    | cons c cs =>
      cases fuel₂ with
      | zero => simp at h2
      | succ g =>
        simp only [replaceAllGo]
        by_cases hpre : (p.isPrefixOf (c :: cs) && !p.isEmpty) = true
        · rw [if_pos hpre, if_pos hpre]
          have hp : 1 ≤ p.length := by
            by_contra hcon
            have hpn : p = [] := by
              cases p with
              | nil => rfl
              | cons a as_ => simp at hcon
            simp [hpn] at hpre
          simp only [List.length_cons] at h1 h2
          have hlen : ((c :: cs).drop p.length).length ≤ f := by
            simp only [List.length_drop, List.length_cons]
            omega
          have hlen2 : ((c :: cs).drop p.length).length ≤ g := by
            simp only [List.length_drop, List.length_cons]
            omega
          rw [ih _ _ hlen hlen2]
        · rw [if_neg hpre, if_neg hpre]
          simp only [List.length_cons] at h1 h2
          rw [ih _ _ (by omega) (by omega : cs.length ≤ g)]

theorem replaceAll_cons_of_no_match {p : List Char} (r : List Char) {c : Char}
    {cs : List Char} (h : ¬ p <+: c :: cs) :
    replaceAll p r (c :: cs) = c :: replaceAll p r cs := by
  have hb : p.isPrefixOf (c :: cs) = false := by
    rcases hb : p.isPrefixOf (c :: cs) with - | -
    · rfl
    · exact absurd (List.isPrefixOf_iff_prefix.mp hb) h
  simp [replaceAll, replaceAllGo, hb]

theorem replaceAll_append_pattern {p : List Char} (r : List Char) (s : List Char)
    (hp : p ≠ []) :
    replaceAll p r (p ++ s) = r ++ replaceAll p r s := by
  cases p with
  | nil => exact absurd rfl hp
  | cons a p2 =>
    have hpre : ((a :: p2).isPrefixOf (a :: (p2 ++ s)) && !(a :: p2).isEmpty) = true := by
      have h : (a :: p2) <+: (a :: p2) ++ s := List.prefix_append _ _
      simp [ List.isPrefixOf_iff_prefix.mpr h]
    show replaceAllGo (a :: p2) r (a :: (p2 ++ s)).length (a :: (p2 ++ s)) =
      r ++ replaceAll (a :: p2) r s
    simp only [List.length_cons, replaceAllGo, hpre, if_pos]
    have hdrop : List.drop (p2.length + 1) (a :: (p2 ++ s)) = s := by
      have h2 : List.drop (a :: p2).length ((a :: p2) ++ s) = s := by simp
      simp only [List.length_cons, List.cons_append] at h2
      exact h2
    rw [hdrop, replaceAllGo_fuel _ _ _ s.length s (by simp [List.length_append]) (le_refl _)]
    rfl

/-- If a non-empty suffix of the pattern `p` is a prefix of the output of
`replaceAllGo`, it was already a prefix of the input (no suffix of `p` is
a prefix of the replacement `r`, and `r` is longer than `p`). -/
theorem replaceAllGo_prefix_reflect {p r : List Char}
    (hlen : p.length < r.length)
    (hsp : ∀ s, s <:+ p → s ≠ [] → ¬ s <+: r) :
    ∀ fuel x s, x.length ≤ fuel → s <:+ p → s ≠ [] →
      s <+: replaceAllGo p r fuel x → s <+: x := by
  intro fuel
  induction fuel with
  | zero =>
    intro x s h1 _ hne hpre
    rw [List.length_eq_zero.mp (Nat.le_zero.mp h1), replaceAllGo_nil] at hpre
    exact absurd (List.prefix_nil.mp hpre) hne
  | succ f ih =>
    intro x s h1 hsuf hne hpre
    cases x with
    | nil =>
      rw [replaceAllGo_nil] at hpre
      exact absurd (List.prefix_nil.mp hpre) hne
    | cons c cs =>
      simp only [replaceAllGo] at hpre
      by_cases hc : (p.isPrefixOf (c :: cs) && !p.isEmpty) = true
      · rw [if_pos hc] at hpre
        have hsr : s <+: r :=
          prefix_of_prefix_append_left hpre (le_trans hsuf.length_le (le_of_lt hlen))
        exact absurd hsr (hsp s hsuf hne)
      · rw [if_neg hc] at hpre
        cases s with
        | nil => exact absurd rfl hne
        | cons s0 s1 =>
          obtain ⟨hs0, hs1⟩ := List.cons_prefix_cons.mp hpre
          by_cases hs1e : s1 = []
          · subst hs0
            simp [hs1e]
          · have hs1suf : s1 <:+ p := (List.suffix_cons s0 s1).trans hsuf
            simp only [List.length_cons] at h1
            have := ih cs s1 (by omega) hs1suf hs1e hs1
            subst hs0
            exact List.cons_prefix_cons.mpr ⟨rfl, this⟩

/-- The output of `replaceAllGo` contains no occurrence of the pattern:
no suffix of the output has `p` as a prefix. -/
theorem replaceAllGo_no_occurrence {p r : List Char} (hp : p ≠ [])
    (hlen : p.length < r.length)
    (hsp : ∀ s, s <:+ p → s ≠ [] → ¬ s <+: r)
    (hrp : ∀ s, s <:+ r → s ≠ [] → ¬ s <+: p)
    (hni : hasSub p r = false) :
    ∀ fuel x t, x.length ≤ fuel → t <:+ replaceAllGo p r fuel x → ¬ p <+: t := by
  intro fuel
  induction fuel with
  | zero =>
    intro x t h1 hsuf hpre
    rw [List.length_eq_zero.mp (Nat.le_zero.mp h1), replaceAllGo_nil] at hsuf
    rw [List.suffix_nil.mp hsuf] at hpre
    exact hp (List.prefix_nil.mp hpre)
  | succ f ih =>
    intro x t h1 hsuf hpre
    cases x with
    | nil =>
      rw [replaceAllGo_nil] at hsuf
      rw [List.suffix_nil.mp hsuf] at hpre
      exact hp (List.prefix_nil.mp hpre)
    | cons c cs =>
      simp only [replaceAllGo] at hsuf
      by_cases hc : (p.isPrefixOf (c :: cs) && !p.isEmpty) = true
      · rw [if_pos hc] at hsuf
        have hp1 : 1 ≤ p.length := by
          cases p with
          | nil => exact absurd rfl hp
          | cons a as_ => simp
        simp only [List.length_cons] at h1
        have hdlen : ((c :: cs).drop p.length).length ≤ f := by
          simp only [List.length_drop, List.length_cons]
          omega
        rcases suffix_append_split hsuf with hz | ⟨r2, hr2, ht⟩
        · exact ih _ t hdlen hz hpre
        · subst ht
          by_cases hpr : p.length ≤ r2.length
          · have : p <+: r2 := prefix_of_prefix_append_left hpre hpr
            have : p <:+: r := this.isInfix.trans hr2.isInfix
            rw [hasSub_of_occurs this] at hni
            simp at hni
          · have hr2p : r2 <+: p := by
              have hpt := List.prefix_iff_eq_take.mp hpre
              refine List.prefix_iff_eq_take.mpr ?_
              rw [hpt, List.take_take]
              rw [Nat.min_eq_left (by omega : r2.length ≤ p.length), List.take_left]
            by_cases hr2n : r2 = []
            · subst hr2n
              have hz : p <+: replaceAllGo p r f ((c :: cs).drop p.length) := by
                simpa using hpre
              exact ih _ _ hdlen (List.suffix_refl _) hz
            · exact hrp r2 hr2 hr2n hr2p
      · rw [if_neg hc] at hsuf
        simp only [List.length_cons] at h1
        rcases List.suffix_cons_iff.mp hsuf with ht | ht
        · subst ht
          cases p with
          | nil => exact absurd rfl hp
          | cons p0 p1 =>
            obtain ⟨hp0, hp1⟩ := List.cons_prefix_cons.mp hpre
            have hp1pre : p0 :: p1 <+: c :: cs := by
              by_cases hp1e : p1 = []
              · subst hp0
                simp [hp1e]
              · have hsuf1 : p1 <:+ p0 :: p1 := List.suffix_cons p0 p1
                have := replaceAllGo_prefix_reflect hlen hsp f cs p1 (by omega)
                  hsuf1 hp1e hp1
                subst hp0
                exact List.cons_prefix_cons.mpr ⟨rfl, this⟩
            rw [List.isPrefixOf_iff_prefix.mpr hp1pre] at hc
            simp at hc
        · exact ih cs t (by omega) ht hpre

/-- `replaceAll` is the identity on a text with no occurrence of the
pattern. -/
theorem replaceAllGo_id_of_no_occurrence {p : List Char} (r : List Char) :
    ∀ fuel y, y.length ≤ fuel → (∀ t, t <:+ y → ¬ p <+: t) →
      replaceAllGo p r fuel y = y := by
  intro fuel
  induction fuel with
  | zero =>
    intro y h1 _
    rw [List.length_eq_zero.mp (Nat.le_zero.mp h1), replaceAllGo_nil]
  | succ f ih =>
    intro y h1 hno
    cases y with
    | nil => rw [replaceAllGo_nil]
    | cons c cs =>
      have hb : p.isPrefixOf (c :: cs) = false := by
        rcases hb : p.isPrefixOf (c :: cs) with - | -
        · rfl
        · exact absurd (List.isPrefixOf_iff_prefix.mp hb)
            (hno (c :: cs) (List.suffix_refl _))
      simp only [List.length_cons] at h1
      simp only [replaceAllGo, hb, Bool.false_and, if_neg, Bool.false_eq_true,
        not_false_iff]
      rw [ih cs (by omega) (fun t ht => hno t (ht.trans (List.suffix_cons c cs)))]

/-- Idempotence of Python replace, under decidable side conditions on the
pattern and the replacement (no non-empty suffix of one is a prefix of
the other, the pattern does not occur in the replacement, the replacement
is longer). -/
theorem replaceAll_idempotent (p r : List Char) (hp : p ≠ [])
    (hlen : p.length < r.length)
    (hsp : suffPrefFree p r = true)
    (hrp : suffPrefFree r p = true)
    (hni : hasSub p r = false) (x : List Char) :
    replaceAll p r (replaceAll p r x) = replaceAll p r x := by
  exact replaceAllGo_id_of_no_occurrence r _ _ (le_refl _)
    (fun t ht => replaceAllGo_no_occurrence hp hlen (suffPrefFree_spec hsp)
      (suffPrefFree_spec hrp) hni x.length x t (le_refl _) ht)

/-! ### splitLines / joinNL -/

theorem slGo_mem_breakFree :
    ∀ (acc x : List Char), (acc.all fun c => !isLineBreak c) = true →
      ∀ l ∈ slGo acc x, breakFreeLine l = true := by
  intro acc x
  induction acc, x using slGo.induct with
  | case1 acc =>
    intro hacc l hl
    simp only [slGo, List.mem_singleton] at hl
    subst hl
    simpa [breakFreeLine] using hacc
  | case2 acc c h =>
    intro hacc l hl
    simp only [slGo, h, if_pos, List.mem_singleton] at hl
    subst hl
    simpa [breakFreeLine] using hacc
  | case3 acc c h =>
    intro hacc l hl
    simp [slGo, h] at hl
    subst hl
    have h2 : isLineBreak c = false := by revert h; cases isLineBreak c <;> simp
    simp [breakFreeLine, h2, hacc]
  | case4 acc c d cs h ih =>
    intro hacc l hl
    simp only [slGo, h, if_pos] at hl
    rcases List.mem_cons.mp hl with hl | hl
    · subst hl
      simpa [breakFreeLine] using hacc
    · by_cases hcs : cs.isEmpty
      · simp [hcs] at hl
      · simp only [hcs, if_neg, Bool.false_eq_true, not_false_iff] at hl
        exact ih (by simp) l hl
  | case5 acc c d cs h1 h2 ih =>
    intro hacc l hl
    simp [slGo, h1, h2] at hl
    rcases hl with hl | hl
    · subst hl
      simpa [breakFreeLine] using hacc
    · exact ih (by simp) l hl
  | case6 acc c d cs h1 h2 ih =>
    intro hacc l hl
    simp [slGo, h1, h2] at hl
    refine ih ?_ l hl
    have h3 : isLineBreak c = false := by revert h2; cases isLineBreak c <;> simp
    simp [h3, hacc]

theorem splitLines_breakFree (x : List Char) :
    ∀ l ∈ splitLines x, breakFreeLine l = true := by
  intro l hl
  unfold splitLines at hl
  by_cases hx : x.isEmpty
  · simp [hx] at hl
  · rw [if_neg hx] at hl
    exact slGo_mem_breakFree [] x rfl l hl

theorem slGo_append_newline (l : List Char) (hl : breakFreeLine l = true) :
    ∀ (acc rest : List Char),
      slGo acc (l ++ '\n' :: rest) =
        (acc.reverse ++ l) :: (if rest.isEmpty then [] else slGo [] rest) := by
  induction l with
  | nil =>
    intro acc rest
    cases rest with
    | nil => simp [slGo, isLineBreak]
    | cons r rs =>
      show slGo acc ('\n' :: r :: rs) = _
      have hrn : ¬('\n' = '\r' ∧ r = '\n') := by
        intro hcon
        exact absurd hcon.1 (by decide)
      simp [slGo, hrn, isLineBreak]
  | cons a l2 ih =>
    intro acc rest
    have hparts : (!isLineBreak a) = true ∧ (l2.all fun c => !isLineBreak c) = true := by
      simpa [breakFreeLine] using hl
    have hl2 : breakFreeLine l2 = true := hparts.2
    have ha : isLineBreak a = false := by
      have := hparts.1
      revert this
      cases isLineBreak a <;> simp
    have har : a ≠ '\r' := by
      intro hcon
      rw [hcon] at ha
      simp [isLineBreak] at ha
    cases l2 with
    | nil =>
      have hc1 : ¬(a = '\r' ∧ '\n' = '\n') := fun hcon => har hcon.1
      have h0 := ih rfl (a :: acc) rest
      simp only [List.nil_append] at h0
      show slGo acc (a :: '\n' :: rest) = _
      rw [show slGo acc (a :: '\n' :: rest) = slGo (a :: acc) ('\n' :: rest) by
        simp [slGo, har, ha]]
      rw [h0]
      simp
    | cons b l3 =>
      have hc1 : ¬(a = '\r' ∧ b = '\n') := fun hcon => har hcon.1
      have h0 := ih hl2 (a :: acc) rest
      show slGo acc (a :: (b :: l3 ++ '\n' :: rest)) = _
      rw [show slGo acc (a :: (b :: l3 ++ '\n' :: rest))
            = slGo (a :: acc) (b :: l3 ++ '\n' :: rest) by
        simp [slGo, hc1, ha]]
      rw [h0]
      simp

/-- Splitting the `"\n"`-joined text (with trailing newline) recovers the
lines, provided they are break-free. -/
theorem splitLines_joinNL (ls : List (List Char)) (hne : ls ≠ [])
    (hbf : ∀ l ∈ ls, breakFreeLine l = true) :
    splitLines (joinNL ls ++ ['\n']) = ls := by
  induction ls with
  | nil => exact absurd rfl hne
  | cons l ls2 ih =>
    cases ls2 with
    | nil =>
      show splitLines (l ++ ['\n']) = [l]
      have hlen : (l ++ ['\n']).isEmpty = false := by
        cases l <;> simp
      rw [splitLines, hlen]
      simp only [Bool.false_eq_true, if_neg, not_false_iff]
      have := slGo_append_newline l (hbf l (by simp)) [] []
      simpa using this
    | cons l2 ls3 =>
      have hjoin : joinNL (l :: l2 :: ls3) = l ++ '\n' :: joinNL (l2 :: ls3) := rfl
      rw [hjoin]
      have hlen : ((l ++ '\n' :: joinNL (l2 :: ls3)) ++ ['\n']).isEmpty = false := by
        cases l <;> simp
      rw [splitLines, if_neg (by simp [hlen])]
      have hassoc : (l ++ '\n' :: joinNL (l2 :: ls3)) ++ ['\n']
          = l ++ '\n' :: (joinNL (l2 :: ls3) ++ ['\n']) := by simp
      rw [hassoc, slGo_append_newline l (hbf l (by simp))]
      have hne2 : (joinNL (l2 :: ls3) ++ ['\n']).isEmpty = false := by
        cases joinNL (l2 :: ls3) <;> simp
      rw [hne2]
      simp only [Bool.false_eq_true, if_neg, not_false_iff, List.nil_append]
      have ih2 := ih (by simp) (fun x hx => hbf x (List.mem_cons_of_mem l hx))
      rw [splitLines, if_neg (by simp [hne2])] at ih2
      rw [ih2]
      simp

/-! ### subLinks: structure of the link rewriting -/

theorem tryMatch_none_of_head_ne {c : Char} (cs : List Char) (hc : c ≠ '[') :
    tryMatch (c :: cs) = none := by
  cases cs with
  | nil => rfl
  | cons d ds =>
    simp only [tryMatch]
    rw [if_neg (fun hcon => hc hcon.1)]

theorem tryMatch_some_length {l x rest : List Char}
    (h : tryMatch l = some (x, rest)) : rest.length < l.length := by
  cases l with
  | nil => simp [tryMatch] at h
  | cons c1 l1 =>
    cases l1 with
    | nil => simp [tryMatch] at h
    | cons c2 r =>
      simp only [tryMatch] at h
      by_cases hc : c1 = '[' ∧ c2 = '`'
      · rw [if_pos hc] at h
        cases hd : r.drop (r.takeWhile (· != ']')).length with
        | nil => rw [hd] at h; simp at h
        | cons d after =>
          rw [hd] at h
          dsimp only at h
          by_cases hcond : 2 ≤ (r.takeWhile (· != ']')).length ∧
              (r.takeWhile (· != ']')).getLast? = some '`' ∧ after.head? ≠ some '(' 
          · rw [if_pos hcond] at h
            simp only [Option.some.injEq, Prod.mk.injEq] at h
            obtain ⟨-, hrest⟩ := h
            subst hrest
            have hlen := congrArg List.length hd
            simp only [List.length_drop, List.length_cons] at hlen ⊢
            omega
          · rw [if_neg hcond] at h; simp at h
      · rw [if_neg hc] at h; simp at h

theorem subLinksGo_nil (mod : Option (List Char)) (fuel : Nat) :
    subLinksGo mod fuel [] = [] := by
  cases fuel <;> rfl

theorem subLinksGo_fuel (mod : Option (List Char)) :
    ∀ fuel₁ fuel₂ l, l.length ≤ fuel₁ → l.length ≤ fuel₂ →
      subLinksGo mod fuel₁ l = subLinksGo mod fuel₂ l := by
  intro fuel₁
  induction fuel₁ with
  | zero =>
    intro fuel₂ l h1 _
    rw [List.length_eq_zero.mp (Nat.le_zero.mp h1), subLinksGo_nil, subLinksGo_nil]
  | succ f ih =>
    intro fuel₂ l h1 h2
    cases l with
    | nil => rw [subLinksGo_nil, subLinksGo_nil]
    | cons c cs =>
      cases fuel₂ with
      | zero => simp at h2
      | succ g =>
        simp only [subLinksGo]
        simp only [List.length_cons] at h1 h2
        cases hm : tryMatch (c :: cs) with
        | some pr =>
          obtain ⟨x, rest⟩ := pr
          have hlt := tryMatch_some_length hm
          simp only [List.length_cons] at hlt
          dsimp only
          rw [ih g rest (by omega) (by omega)]
        | none =>
          dsimp only
          rw [ih g cs (by omega) (by omega)]

theorem subLinks_step (mod : Option (List Char)) (c : Char) (cs : List Char) :
    subLinks mod (c :: cs) =
      match tryMatch (c :: cs) with
      | some (x, rest) => linkOf mod x ++ subLinksGo mod cs.length rest
      | none => c :: subLinksGo mod cs.length cs := by
  simp only [subLinks, List.length_cons, subLinksGo]

theorem takeWhile_append_of_all {p : Char → Bool} {u : List Char} (v : List Char)
    (h : ∀ c ∈ u, p c = true) :
    (u ++ v).takeWhile p = u ++ v.takeWhile p := by
  induction u with
  | nil => simp
  | cons a u2 ih =>
    have ha : p a = true := h a (by simp)
    have ih2 := ih (fun c hc => h c (by simp [hc]))
    simp [List.takeWhile_cons, ha, ih2]

/-- The head match of the link pattern on `"[`" ++ x ++ "`]" ++ b`. -/
theorem tryMatch_bracket (x b : List Char) (hx : x ≠ []) (hxr : ']' ∉ x) :
    tryMatch ('[' :: '`' :: (x ++ '`' :: ']' :: b)) =
      if b.head? ≠ some '(' then some (x, b) else none := by
  simp only [tryMatch, if_pos (And.intro rfl rfl)]
  have hall : ∀ c ∈ x, (c != ']') = true := by
    intro c hc
    have : c ≠ ']' := fun hcon => hxr (hcon ▸ hc)
    simp [this]
  have hpre : (x ++ '`' :: ']' :: b).takeWhile (· != ']') = x ++ ['`'] := by
    rw [takeWhile_append_of_all _ hall]
    rfl
  rw [hpre]
  have hdrop : (x ++ '`' :: ']' :: b).drop (x ++ ['`']).length = ']' :: b := by
    have h1 : (x ++ ['`']).length = x.length + 1 := by simp
    rw [h1]
    have h2 : (x ++ '`' :: ']' :: b).drop (x.length + 1)
        = ('`' :: ']' :: b).drop 1 := List.drop_append 1
    rw [h2]
    rfl
  rw [hdrop]
  dsimp only
  have hlen : 2 ≤ (x ++ ['`']).length := by
    cases x with
    | nil => exact absurd rfl hx
    | cons a as_ => simp
  have hlast : (x ++ ['`']).getLast? = some '`' := List.getLast?_concat x
  by_cases hb : b.head? ≠ some '(' 
  · simp [hlen, hlast, hb, List.dropLast_concat, hx]
  · simp [hb]

/-- Scanning a text with no `[` passes it through unchanged. -/
theorem subLinksGo_pass (mod : Option (List Char)) :
    ∀ (a : List Char) (fuel : Nat) (t : List Char), (a ++ t).length ≤ fuel →
      (∀ c ∈ a, c ≠ '[') →
      subLinksGo mod fuel (a ++ t) = a ++ subLinks mod t := by
  intro a
  induction a with
  | nil =>
    intro fuel t hlen _
    simpa using subLinksGo_fuel mod fuel t.length t (by simpa using hlen) (le_refl _)
  | cons c a2 ih =>
    intro fuel t hlen hfree
    cases fuel with
    | zero => simp at hlen
    | succ f =>
      simp only [List.cons_append, subLinksGo,
        tryMatch_none_of_head_ne _ (hfree c (by simp)), List.append_eq]
      simp only [List.cons_append, List.length_cons] at hlen
      rw [ih f t (by omega) (fun d hd => hfree d (by simp [hd]))]

/-- A line with no occurrence of the link pattern passes through the
rewriting unchanged. -/
theorem subLinksGo_id_of_noOcc (mod : Option (List Char)) :
    ∀ (fuel : Nat) (l : List Char), l.length ≤ fuel → noLinkOcc l = true →
      subLinksGo mod fuel l = l := by
  intro fuel
  induction fuel with
  | zero =>
    intro l h1 _
    rw [List.length_eq_zero.mp (Nat.le_zero.mp h1), subLinksGo_nil]
  | succ f ih =>
    intro l h1 hno
    cases l with
    | nil => rw [subLinksGo_nil]
    | cons c cs =>
      simp only [noLinkOcc, Bool.and_eq_true, Option.isNone_iff_eq_none] at hno
      simp only [subLinksGo, hno.1]
      simp only [List.length_cons] at h1
      rw [ih cs (by omega) hno.2]

/-- Toggle-counting invariant of the fence state machine: along any run,
opening transitions and closing transitions differ exactly by the change
of state. -/
theorem fenceFold_balance :
    ∀ (ls : List (List Char)) (st : Bool),
      (fenceFold st ls).2.2.1 + (if st then 1 else 0) =
        (fenceFold st ls).2.2.2 + (if (fenceFold st ls).1 then 1 else 0) := by
  intro ls
  induction ls with
  | nil =>
    intro st
    simp [fenceFold]
  | cons l ls2 ih =>
    intro st
    by_cases h : hasSub fence3 l = true
    · have hstep : (fenceStep st l).1 = !st := by simp [fenceStep, h]
      have := ih (!st)
      simp only [fenceFold, hstep]
      cases st
      · simp_all
      · simp_all
        omega
    · have hstep : (fenceStep st l).1 = st := by simp [fenceStep, h]
      have := ih st
      simp only [fenceFold, hstep]
      cases st <;> simp_all

/-! ## Claim theorems -/

/-- C1 (counterexample): the table-row Anchor Mutator strategy is not
idempotent for every input.  On the text `"hello"` (last line does not
match the row pattern) the first call appends a fresh row
`"| 0.9 | 0.6 |"`; the second call with the same two versions does not
recognise it (the already-present regex needs a space before the crate
version) and corrupts the row to `"| 0.9, 0.9 | 0.6 |"`. -/
theorem c1_mutator_idempotence_counterexample :
    ((add_to_compat_table "0.6".toList "0.9".toList "hello".toList).bind
        (add_to_compat_table "0.6".toList "0.9".toList)) ≠
      add_to_compat_table "0.6".toList "0.9".toList "hello".toList ∧
    add_to_compat_table "0.6".toList "0.9".toList "hello".toList =
      some "hello\n| 0.9 | 0.6 |\n".toList ∧
    ((add_to_compat_table "0.6".toList "0.9".toList "hello".toList).bind
        (add_to_compat_table "0.6".toList "0.9".toList)) =
      some "hello\n| 0.9, 0.9 | 0.6 |\n".toList := by
  refine ⟨by decide, by decide, by decide⟩

/-- C1 (amended): `mutate(mutate(x)) == mutate(x)` holds for the
heading-stamp strategy for every input `x` (under decidable side
conditions on the version and date strings that every digits-and-dots
version and `YYYY-MM-DD` date satisfies), and for the table-row strategy
on every input whose last line already records the version pair (the
already-present check matches, so the call is a no-op); it fails in
general when a fresh row is appended. -/
theorem c1_mutator_idempotence_amended :
    (∀ v d x, unreleasedMarker.length < (stampHeading v d).length →
      suffPrefFree unreleasedMarker (stampHeading v d) = true →
      suffPrefFree (stampHeading v d) unreleasedMarker = true →
      hasSub unreleasedMarker (stampHeading v d) = false →
      replace_in_changelog v d (replace_in_changelog v d x) =
        replace_in_changelog v d x) ∧
    (∀ lept crate x lastRow, (splitLines x).getLast? = some lastRow →
      rowMatches lept lastRow = true → rowHasPair crate lept lastRow = true →
      add_to_compat_table lept crate x = some x) := by
  constructor
  · intro v d x hlen hsp hrp hni
    exact replaceAll_idempotent _ _ (by decide) hlen hsp hrp hni x
  · intro lept crate x lastRow hlast hm hp
    simp [add_to_compat_table, hlast, hm, hp]

/-- C1 (witness). -/
theorem c1_mutator_idempotence_witness :
    (unreleasedMarker.length <
        (stampHeading "1.2.3".toList "2024-01-01".toList).length ∧
     (splitLines "| 0.9, 0.9 | 0.6 |".toList).getLast? =
        some "| 0.9, 0.9 | 0.6 |".toList) ∧
    replace_in_changelog "1.2.3".toList "2024-01-01".toList
        (replace_in_changelog "1.2.3".toList "2024-01-01".toList
          "## [Unreleased] - \nx".toList) =
      replace_in_changelog "1.2.3".toList "2024-01-01".toList
        "## [Unreleased] - \nx".toList ∧
    add_to_compat_table "0.6".toList "0.9".toList "| 0.9, 0.9 | 0.6 |".toList =
      some "| 0.9, 0.9 | 0.6 |".toList :=
  ⟨⟨by decide, by decide⟩,
   c1_mutator_idempotence_amended.1 "1.2.3".toList "2024-01-01".toList
     "## [Unreleased] - \nx".toList (by decide) (by decide) (by decide) (by decide),
   c1_mutator_idempotence_amended.2 "0.6".toList "0.9".toList
     "| 0.9, 0.9 | 0.6 |".toList "| 0.9, 0.9 | 0.6 |".toList
     (by decide) (by decide) (by decide)⟩

/-- C2 (counterexample): in the Post-Build Splicer, an asset path
beginning with `./demo` is NOT rewritten to `./{name}/demo`: the blind
substring replace turns `"./demo/app.js"` into `"../foo/demo/app.js"`,
which differs from `"./foo/demo/app.js"`. -/
theorem c2_demo_path_rewrite_counterexample :
    rewriteDemoLinks "foo".toList "./demo/app.js".toList =
      "../foo/demo/app.js".toList ∧
    rewriteDemoLinks "foo".toList "./demo/app.js".toList ≠
      "./foo/demo/app.js".toList := by
  refine ⟨by decide, by decide⟩

/-- C2 (amended): the rewrite replaces every occurrence of the substring
`/demo` by `./{name}/demo`; hence a path beginning with `/demo` is
rewritten to begin with `./{name}/demo`, while a path beginning with
`./demo` is rewritten to begin with `../{name}/demo` — the two forms do
not end up pointing at the same place. -/
theorem c2_demo_path_rewrite_amended (name s : List Char) :
    rewriteDemoLinks name ("/demo".toList ++ s) =
      "./".toList ++ name ++ "/demo".toList ++ rewriteDemoLinks name s ∧
    rewriteDemoLinks name ("./demo".toList ++ s) =
      "../".toList ++ name ++ "/demo".toList ++ rewriteDemoLinks name s := by
  constructor
  · have h := replaceAll_append_pattern
      ("./".toList ++ name ++ "/demo".toList) s (p := "/demo".toList) (by decide)
    simp only [rewriteDemoLinks] at h ⊢
    rw [h]
  · have h1 : "./demo".toList ++ s = '.' :: ("/demo".toList ++ s) := rfl
    have h2 : ¬ "/demo".toList <+: '.' :: ("/demo".toList ++ s) := by
      intro hcon
      exact absurd (List.cons_prefix_cons.mp hcon).1 (by decide)
    have h3 := replaceAll_append_pattern
      ("./".toList ++ name ++ "/demo".toList) s (p := "/demo".toList) (by decide)
    simp only [rewriteDemoLinks, h1]
    rw [replaceAll_cons_of_no_match _ h2, h3]
    simp [List.append_assoc]

/-- C3: if the compatibility table's last line is exactly
`"| 0.9 | 0.6 |"`, the table-row update with left-version `0.10` and
right-version `0.6` turns that line into `"| 0.9, 0.10 | 0.6 |"` (other
lines kept, rejoined with newlines), and a second identical call returns
the text unchanged. -/
theorem c3_compat_table_accumulation (x : List Char) (ls : List (List Char))
    (h : splitLines x = ls ++ ["| 0.9 | 0.6 |".toList]) :
    add_to_compat_table "0.6".toList "0.10".toList x =
      some (joinNL (ls ++ ["| 0.9, 0.10 | 0.6 |".toList]) ++ ['\n']) ∧
    add_to_compat_table "0.6".toList "0.10".toList
        (joinNL (ls ++ ["| 0.9, 0.10 | 0.6 |".toList]) ++ ['\n']) =
      some (joinNL (ls ++ ["| 0.9, 0.10 | 0.6 |".toList]) ++ ['\n']) := by
  constructor
  · have hm : rowMatches "0.6".toList "| 0.9 | 0.6 |".toList = true := by decide
    have hp : ¬ rowHasPair "0.10".toList "0.6".toList "| 0.9 | 0.6 |".toList = true := by
      decide
    have hidx : idxPipeFrom1 "| 0.9 | 0.6 |".toList = some 6 := by decide
    have hback : backOverSpaces "| 0.9 | 0.6 |".toList 6 = 5 := by decide
    have hrow : List.take 5 "| 0.9 | 0.6 |".toList ++ ',' :: ' ' :: "0.10".toList ++
        List.drop 5 "| 0.9 | 0.6 |".toList = "| 0.9, 0.10 | 0.6 |".toList := by decide
    unfold add_to_compat_table
    rw [h]
    dsimp only
    rw [List.getLast?_concat]
    dsimp only
    rw [if_pos hm, if_neg hp, hidx]
    dsimp only
    rw [hback, List.dropLast_concat, hrow]
  · have hbf : ∀ l ∈ ls ++ ["| 0.9, 0.10 | 0.6 |".toList], breakFreeLine l = true := by
      intro l hl
      rcases List.mem_append.mp hl with hl | hl
      · exact splitLines_breakFree x l (by rw [h]; exact List.mem_append_left _ hl)
      · simp only [List.mem_singleton] at hl
        subst hl
        decide
    have hsl := splitLines_joinNL (ls ++ ["| 0.9, 0.10 | 0.6 |".toList]) (by simp) hbf
    have hm2 : rowMatches "0.6".toList "| 0.9, 0.10 | 0.6 |".toList = true := by decide
    have hp2 : rowHasPair "0.10".toList "0.6".toList "| 0.9, 0.10 | 0.6 |".toList =
        true := by decide
    unfold add_to_compat_table
    rw [hsl]
    dsimp only
    rw [List.getLast?_concat]
    dsimp only
    rw [if_pos hm2, if_pos hp2]

/-- C3 (witness). -/
theorem c3_compat_table_accumulation_witness :
    splitLines "| 0.9 | 0.6 |".toList = [] ++ ["| 0.9 | 0.6 |".toList] ∧
    (add_to_compat_table "0.6".toList "0.10".toList "| 0.9 | 0.6 |".toList =
      some (joinNL ([] ++ ["| 0.9, 0.10 | 0.6 |".toList]) ++ ['\n']) ∧
    add_to_compat_table "0.6".toList "0.10".toList
        (joinNL ([] ++ ["| 0.9, 0.10 | 0.6 |".toList]) ++ ['\n']) =
      some (joinNL ([] ++ ["| 0.9, 0.10 | 0.6 |".toList]) ++ ['\n'])) :=
  ⟨by decide, c3_compat_table_accumulation "| 0.9 | 0.6 |".toList [] (by decide)⟩

/-- C4: in `--check` mode the Release Doc Updater performs no file write
whatever the outcome, and (whenever the run terminates normally) exits
with code 1 exactly when the README compatibility table or the changelog
heading is not up to date. -/
theorem c4_check_mode_purity (lept crateS crateL date readme changelog : List Char)
    (res : RunResult)
    (h : runMain .check lept crateS crateL date readme changelog = some res) :
    res.writes = [] ∧
    (res.exitCode = 1 ↔
      (add_to_compat_table lept crateS readme ≠ some readme ∨
       replace_in_changelog crateL date changelog ≠ changelog)) := by
  unfold runMain at h
  cases ht : add_to_compat_table lept crateS readme with
  | none => rw [ht] at h; exact absurd h (by simp)
  | some t1 =>
    rw [ht] at h
    dsimp only at h
    by_cases h1 : t1 ≠ readme
    · rw [if_pos h1] at h
      obtain rfl : (⟨1, []⟩ : RunResult) = res := Option.some.inj h
      refine ⟨rfl, ?_⟩
      constructor
      · intro _
        left
        simp [h1]
      · intro _
        rfl
    · rw [if_neg h1] at h
      push_neg at h1
      by_cases h2 : replace_in_changelog crateL date changelog ≠ changelog
      · rw [if_pos h2] at h
        obtain rfl : (⟨1, []⟩ : RunResult) = res := Option.some.inj h
        exact ⟨rfl, ⟨fun _ => Or.inr h2, fun _ => rfl⟩⟩
      · rw [if_neg h2] at h
        obtain rfl : (⟨0, []⟩ : RunResult) = res := Option.some.inj h
        push_neg at h2
        refine ⟨rfl, ?_⟩
        constructor
        · intro hcon
          exact absurd hcon (by simp)
        · intro hcon
          rcases hcon with hcon | hcon
          · rw [h1] at hcon
            exact absurd rfl hcon
          · exact absurd h2 hcon

/-- C4 (witness). -/
theorem c4_check_mode_purity_witness :
    runMain .check "0.6".toList "0.9".toList "0.9.1".toList "2025-01-01".toList
        "hello".toList "x".toList = some ⟨1, []⟩ ∧
    ((⟨1, []⟩ : RunResult).writes = [] ∧
     ((⟨1, []⟩ : RunResult).exitCode = 1 ↔
       (add_to_compat_table "0.6".toList "0.9".toList "hello".toList ≠
          some "hello".toList ∨
        replace_in_changelog "0.9.1".toList "2025-01-01".toList "x".toList ≠
          "x".toList))) :=
  ⟨by decide, c4_check_mode_purity "0.6".toList "0.9".toList "0.9.1".toList
    "2025-01-01".toList "hello".toList "x".toList ⟨1, []⟩ (by decide)⟩

/-- C5 (counterexample): the merged head of the spliced page is not
exactly the concatenation of the demo head fragment and the book head
fragment: the splicer interposes fixed newline-and-indent whitespace. -/
theorem c5_splice_ordering_counterexample :
    splice "<html><head><script src=a></head><body>c</body></html>".toList
        "PRE<head><link href=b></head><body class=x>d</body>POST".toList =
      some ("PRE \n<head>\n    <script src=a>\n    <link href=b>\n</head>\n<body>\n    c\n    d\n</body>\nPOST".toList) ∧
    demoHeadFragment
        "PRE \n<head>\n    <script src=a>\n    <link href=b>\n</head>\n<body>\n    c\n    d\n</body>\nPOST".toList =
      some "\n    <script src=a>\n    <link href=b>\n".toList ∧
    "\n    <script src=a>\n    <link href=b>\n".toList ≠
      "<script src=a><link href=b>".toList := by
  refine ⟨by decide, by decide, by decide⟩

/-- C5 (amended): for the demo head fragment `"<script src=a>"` and book
head fragment `"<link href=b>"` the merged head section is exactly
`"\n    <script src=a>\n    <link href=b>\n"` — the demo fragment first,
then the book fragment, each preceded by a newline and four spaces — and
analogously the merged body for demo body `"c"` and book body `"d"` is
exactly `"\n    c\n    d\n"`. -/
theorem c5_splice_ordering_amended :
    splice "<html><head><script src=a></head><body>c</body></html>".toList
        "PRE<head><link href=b></head><body class=x>d</body>POST".toList =
      some ("PRE \n<head>\n    <script src=a>\n    <link href=b>\n</head>\n<body>\n    c\n    d\n</body>\nPOST".toList) ∧
    demoHeadFragment
        "<html><head><script src=a></head><body>c</body></html>".toList =
      some "<script src=a>".toList ∧
    demoBodyFragment
        "<html><head><script src=a></head><body>c</body></html>".toList =
      some "c".toList ∧
    demoHeadFragment
        "PRE \n<head>\n    <script src=a>\n    <link href=b>\n</head>\n<body>\n    c\n    d\n</body>\nPOST".toList =
      some "\n    <script src=a>\n    <link href=b>\n".toList ∧
    demoBodyFragment
        "PRE \n<head>\n    <script src=a>\n    <link href=b>\n</head>\n<body>\n    c\n    d\n</body>\nPOST".toList =
      some "\n    c\n    d\n".toList := by
  refine ⟨by decide, by decide, by decide, by decide, by decide⟩

/-- C6 (counterexample): the demo entry document's body fragment is not
the span after the first body opening tag with attributes: extraction
splits on the literal bare `<body>`, so in a document with an attributed
first body tag and a bare one later, the fragment comes from the bare
tag (`"FAKE"`), not from the first body tag (`"REAL"`, which the
attribute-tolerant book-page extraction finds). -/
theorem c6_body_extraction_counterexample :
    demoBodyFragment
        "<head>h</head><body class=x>REAL</body><body>FAKE</body>".toList =
      some "FAKE".toList ∧
    bookBodyFragment
        "<head>h</head><body class=x>REAL</body><body>FAKE</body>".toList =
      some "REAL".toList ∧
    ("FAKE".toList : List Char) ≠ "REAL".toList := by
  refine ⟨by decide, by decide, by decide⟩

/-- C6 (amended): only the already-rendered book page's extraction
matches a body opening tag carrying attributes (regex `<body[^>]*>`);
the demo entry document is split on the literal bare `<body>`, so an
attributed body tag there is not found at all (the splicer would crash
with an `IndexError`), while a bare tag is. -/
theorem c6_body_extraction_amended :
    bookBodyFragment "<html><head>h</head><body class=x>c</body>POST".toList =
      some "c".toList ∧
    demoBodyFragment "<html><head>h</head><body class=x>c</body>POST".toList =
      none ∧
    demoBodyFragment "<html><head>h</head><body>c</body>POST".toList =
      some "c".toList ∧
    bookBodyFragment "<html><head>h</head><body>c</body>POST".toList =
      some "c".toList := by
  refine ⟨by decide, by decide, by decide, by decide⟩

/-- C7: on every doc-comment line that is not a demo-link line the
rewriter is the internal-doc-link substitution; that substitution is
determined position by position for every line: at a position where the
link pattern matches, the occurrence (a backquoted reference followed by
`]` but not by `(`) is rewritten into a markdown link whose text
contains the identifier and whose URL contains `fn.{identifier}.html`,
continuing on the rest of the line (conjunct ii); at a position where
the pattern does not match — whatever the character, including a stray
`[` that opens an ordinary markdown link — the character is emitted
unchanged and scanning continues on the tail (conjunct vi), so every
occurrence on the line is reached and rewritten no matter what precedes
it.  An occurrence already followed by `(` is left untouched
(conjunct iii), `[`-free text passes through wholesale (conjunct iv), a
line with no occurrence is unchanged (conjunct v), and a mixed line
with a non-matching `[` before a real occurrence rewrites exactly that
occurrence (conjunct vii). -/
theorem c7_link_rewrite_totality :
    (∀ mod line, isDemoLinkLine line = false →
      process_line mod line = subLinks mod line) ∧
    (∀ mod x b, x ≠ [] → ']' ∉ x → b.head? ≠ some '(' →
      subLinks mod ("[`".toList ++ x ++ "`]".toList ++ b) =
        "[`".toList ++ x ++ "`](".toList ++ docsBase ++ modSeg mod ++
          "/fn.".toList ++ x ++ ".html)".toList ++ subLinks mod b) ∧
    (∀ mod x b, x ≠ [] → ']' ∉ x → '[' ∉ x →
      subLinks mod ("[`".toList ++ x ++ "`](".toList ++ b) =
        "[`".toList ++ x ++ "`](".toList ++ subLinks mod b) ∧
    (∀ mod a t, (∀ c ∈ a, c ≠ '[') →
      subLinks mod (a ++ t) = a ++ subLinks mod t) ∧
    (∀ mod line, noLinkOcc line = true → subLinks mod line = line) ∧
    (∀ mod c cs, tryMatch (c :: cs) = none →
      subLinks mod (c :: cs) = c :: subLinks mod cs) ∧
    subLinks none "see [MDN](u) and [`use_x`]".toList =
      "see [MDN](u) and [`use_x`](https://docs.rs/leptos-use/latest/leptos_useNone/fn.use_x.html)".toList := by
  refine ⟨?_, ?_, ?_, ?_, ?_, ?_, by decide⟩
  · intro mod line hd
    simp [process_line, hd]
  · intro mod x b hx hxr hb
    have hshape : "[`".toList ++ x ++ "`]".toList ++ b =
        '[' :: '`' :: (x ++ '`' :: ']' :: b) := by simp
    rw [hshape]
    rw [subLinks_step]
    rw [tryMatch_bracket x b hx hxr, if_pos hb]
    dsimp only
    rw [subLinksGo_fuel mod ('`' :: (x ++ '`' :: ']' :: b)).length b.length b
      (by simp only [List.length_cons, List.length_append]
          omega) (le_refl _)]
    simp [linkOf, subLinks, List.append_assoc]
  · intro mod x b hx hxr hxl
    have hshape : "[`".toList ++ x ++ "`](".toList ++ b =
        '[' :: '`' :: (x ++ '`' :: ']' :: ('(' :: b)) := by simp
    rw [hshape]
    rw [subLinks_step]
    rw [tryMatch_bracket x ('(' :: b) hx hxr, if_neg (by simp)]
    dsimp only
    have hpass := subLinksGo_pass mod ('`' :: (x ++ ['`', ']', '('])) 
      ('`' :: (x ++ '`' :: ']' :: ('(' :: b))).length b
      (by simp only [List.length_cons, List.length_append, List.append_assoc,
            List.length_nil]
          omega)
      (by
        intro c hc
        simp only [List.mem_cons, List.mem_append, List.not_mem_nil,
          or_false] at hc
        rcases hc with hc | hc | hc | hc | hc
        · subst hc; decide
        · exact fun hcon => hxl (hcon ▸ hc)
        · subst hc; decide
        · subst hc; decide
        · subst hc; decide)
    have hshape2 : ('`' :: (x ++ ['`', ']', '('])) ++ b =
        '`' :: (x ++ '`' :: ']' :: ('(' :: b)) := by simp
    rw [hshape2] at hpass
    rw [hpass]
    simp [List.append_assoc]
  · intro mod a t hfree
    exact subLinksGo_pass mod a (a ++ t).length t (le_refl _) hfree
  · intro mod line hno
    exact subLinksGo_id_of_noOcc mod line.length line (le_refl _) hno
  · intro mod c cs hm
    rw [subLinks_step, hm]
    rfl

/-- C7 (witness). -/
theorem c7_link_rewrite_totality_witness :
    (isDemoLinkLine "see [`use_abs`] here".toList = false ∧
     ("use_abs".toList : List Char) ≠ [] ∧ ']' ∉ "use_abs".toList ∧
     '[' ∉ "use_abs".toList ∧
     (" here".toList : List Char).head? ≠ some '(' ∧
     (∀ c ∈ "see ".toList, c ≠ '[') ∧
     noLinkOcc "no links here".toList = true ∧
     tryMatch ('[' :: "MDN](u) and [`use_x`]".toList) = none) ∧
    process_line (some "math".toList) "see [`use_abs`] here".toList =
      subLinks (some "math".toList) "see [`use_abs`] here".toList ∧
    subLinks (some "math".toList)
        ("[`".toList ++ "use_abs".toList ++ "`]".toList ++ " here".toList) =
      "[`".toList ++ "use_abs".toList ++ "`](".toList ++ docsBase ++
        modSeg (some "math".toList) ++ "/fn.".toList ++ "use_abs".toList ++
        ".html)".toList ++ subLinks (some "math".toList) " here".toList ∧
    subLinks none ("[`".toList ++ "use_abs".toList ++ "`](".toList ++ "x)".toList) =
      "[`".toList ++ "use_abs".toList ++ "`](".toList ++ subLinks none "x)".toList ∧
    subLinks none ("see ".toList ++ "[`u`]".toList) =
      "see ".toList ++ subLinks none "[`u`]".toList ∧
    subLinks none "no links here".toList = "no links here".toList ∧
    subLinks none ('[' :: "MDN](u) and [`use_x`]".toList) =
      '[' :: subLinks none "MDN](u) and [`use_x`]".toList :=
  ⟨⟨by decide, by decide, by decide, by decide, by decide, by decide, by decide,
    by decide⟩,
   c7_link_rewrite_totality.1 (some "math".toList) "see [`use_abs`] here".toList
     (by decide),
   c7_link_rewrite_totality.2.1 (some "math".toList) "use_abs".toList " here".toList
     (by decide) (by decide) (by decide),
   c7_link_rewrite_totality.2.2.1 none "use_abs".toList "x)".toList
     (by decide) (by decide) (by decide),
   c7_link_rewrite_totality.2.2.2.1 none "see ".toList "[`u`]".toList (by decide),
   c7_link_rewrite_totality.2.2.2.2.1 none "no links here".toList (by decide),
   c7_link_rewrite_totality.2.2.2.2.2.1 none '[' "MDN](u) and [`use_x`]".toList
     (by decide)⟩

/-- C8 (counterexample): an opening fence's language tag is not rewritten
TO `rust,ignore`: the substring replace turns `"```python"` into
`"```rust,ignorepython"`, whose tag is not `rust,ignore`. -/
theorem c8_fence_annotation_counterexample :
    (fenceStep false "```python".toList).2 = "```rust,ignorepython".toList ∧
    (fenceStep false "```python".toList).2 ≠ "```rust,ignore".toList ∧
    (fenceStep false "```python".toList).1 = true := by
  refine ⟨by decide, by decide, by decide⟩

/-- C8 (amended): a fence line met while outside a code block has every
```` ``` ```` replaced by ```` ```rust,ignore ```` (a bare fence's tag
becomes exactly `rust,ignore`; a pre-existing tag remains appended after
it) and toggles the state to inside; a fence line met while inside is
left unannotated and toggles back; a line with no fence marker is
emitted unchanged with the state unchanged; in any run starting and
ending outside, the number of ignore-tagged opening fences equals the
number of closing fences consumed. -/
theorem c8_fence_annotation_amended :
    (∀ l, hasSub fence3 l = true →
      fenceStep false l = (true, replaceAll fence3 fenceIgnore l)) ∧
    fenceStep false fence3 = (true, fenceIgnore) ∧
    (∀ l, hasSub fence3 l = true → fenceStep true l = (false, l)) ∧
    (∀ st l, hasSub fence3 l = false → fenceStep st l = (st, l)) ∧
    (∀ lines, (fenceFold false lines).1 = false →
      (fenceFold false lines).2.2.1 = (fenceFold false lines).2.2.2) := by
  refine ⟨?_, by decide, ?_, ?_, ?_⟩
  · intro l h
    simp [fenceStep, h]
  · intro l h
    simp [fenceStep, h]
  · intro st l h
    simp [fenceStep, h]
  · intro lines hst
    have := fenceFold_balance lines false
    rw [hst] at this
    simpa using this

/-- C8 (witness). -/
theorem c8_fence_annotation_witness :
    (hasSub fence3 "```".toList = true ∧
     hasSub fence3 "```rust".toList = true ∧
     hasSub fence3 "let x = 1;".toList = false ∧
     (fenceFold false ["```".toList, "code".toList, "```".toList]).1 = false) ∧
    fenceStep false "```".toList = (true, replaceAll fence3 fenceIgnore "```".toList) ∧
    fenceStep true "```rust".toList = (false, "```rust".toList) ∧
    fenceStep true "let x = 1;".toList = (true, "let x = 1;".toList) ∧
    (fenceFold false ["```".toList, "code".toList, "```".toList]).2.2.1 =
      (fenceFold false ["```".toList, "code".toList, "```".toList]).2.2.2 :=
  ⟨⟨by decide, by decide, by decide, by decide⟩,
   c8_fence_annotation_amended.1 "```".toList (by decide),
   c8_fence_annotation_amended.2.2.1 "```rust".toList (by decide),
   c8_fence_annotation_amended.2.2.2.1 true "let x = 1;".toList (by decide),
   c8_fence_annotation_amended.2.2.2.2 ["```".toList, "code".toList, "```".toList]
     (by decide)⟩

/-- C9: inserting entry `b` and then entry `a` into an initially empty
sorted section — both for the SUMMARY.md category section and for the
workspace member list — yields the entries in final order `a`, `b`, and
the final content is the same whichever entry is inserted first. -/
theorem c9_scaffold_sorted_insert :
    ((modify_summarymd "b".toList "elements".toList "# elements\n\n".toList).bind
        (modify_summarymd "a".toList "elements".toList) =
      some "# elements\n\n- [a](elements/a.md)\n- [b](elements/b.md)\n".toList) ∧
    ((modify_summarymd "a".toList "elements".toList "# elements\n\n".toList).bind
        (modify_summarymd "b".toList "elements".toList) =
      some "# elements\n\n- [a](elements/a.md)\n- [b](elements/b.md)\n".toList) ∧
    ((modify_workspace "b".toList "members = [\n]".toList).bind
        (modify_workspace "a".toList) =
      some "members = [\n    \"a\",\n    \"b\",\n]".toList) ∧
    ((modify_workspace "a".toList "members = [\n]".toList).bind
        (modify_workspace "b".toList) =
      some "members = [\n    \"a\",\n    \"b\",\n]".toList) := by
  refine ⟨by decide, by decide, by decide, by decide⟩

/-- C10 (counterexample): the changelog bullet is not inserted at line
index 9 for every input with the two headings present: on a three-line
changelog that already has the Unreleased heading and a New Functions
heading, the bullet is appended at index 3 and index 9 does not exist. -/
theorem c10_changelog_insert_counterexample :
    hasUnreleased
        ["# C\n".toList, "## [Unreleased] - \n".toList,
         "### New Functions\n".toList] = true ∧
    hasNewFunctions
        ["# C\n".toList, "## [Unreleased] - \n".toList,
         "### New Functions\n".toList] = true ∧
    (modify_changelog "use_x".toList
        ["# C\n".toList, "## [Unreleased] - \n".toList,
         "### New Functions\n".toList])[9]? = none ∧
    (modify_changelog "use_x".toList
        ["# C\n".toList, "## [Unreleased] - \n".toList,
         "### New Functions\n".toList])[3]? =
      some (changelogBullet "use_x".toList) := by
  refine ⟨by decide, by decide, by decide, by decide⟩

/-- C10 (amended): when the changelog already contains an Unreleased
heading and a New Functions heading before the next release heading, the
update is exactly Python's `insert(9, bullet)`: the bullet lands at line
index 9 when the file has at least nine lines, and is appended at the
end otherwise. -/
theorem c10_changelog_insert_amended (fn : List Char) (lines : List (List Char))
    (h1 : hasUnreleased lines = true) (h2 : hasNewFunctions lines = true) :
    modify_changelog fn lines = pyInsert 9 (changelogBullet fn) lines ∧
    (9 ≤ lines.length →
      (modify_changelog fn lines)[9]? = some (changelogBullet fn)) ∧
    (lines.length < 9 →
      modify_changelog fn lines = lines ++ [changelogBullet fn]) := by
  have hm : modify_changelog fn lines = pyInsert 9 (changelogBullet fn) lines := by
    simp [modify_changelog, h1, h2]
  refine ⟨hm, ?_, ?_⟩
  · intro h9
    rw [hm]
    unfold pyInsert
    have htake : (lines.take 9).length = 9 := by
      rw [List.length_take]
      omega
    rw [List.getElem?_append_right (by omega)]
    rw [htake]
    simp
  · intro h9
    rw [hm]
    unfold pyInsert
    rw [List.take_of_length_le (by omega), List.drop_eq_nil_of_le (by omega)]

/-- C10 (witness). -/
theorem c10_changelog_insert_witness :
    (hasUnreleased
        ["# C\n".toList, "\n".toList, "x1\n".toList, "x2\n".toList, "x3\n".toList,
         "## [Unreleased] - \n".toList, "\n".toList, "### New Functions\n".toList,
         "\n".toList, "- `old`\n".toList] = true ∧
     hasNewFunctions
        ["# C\n".toList, "\n".toList, "x1\n".toList, "x2\n".toList, "x3\n".toList,
         "## [Unreleased] - \n".toList, "\n".toList, "### New Functions\n".toList,
         "\n".toList, "- `old`\n".toList] = true ∧
     9 ≤ (["# C\n".toList, "\n".toList, "x1\n".toList, "x2\n".toList, "x3\n".toList,
         "## [Unreleased] - \n".toList, "\n".toList, "### New Functions\n".toList,
         "\n".toList, "- `old`\n".toList] : List (List Char)).length) ∧
    (modify_changelog "use_x".toList
        ["# C\n".toList, "\n".toList, "x1\n".toList, "x2\n".toList, "x3\n".toList,
         "## [Unreleased] - \n".toList, "\n".toList, "### New Functions\n".toList,
         "\n".toList, "- `old`\n".toList])[9]? =
      some (changelogBullet "use_x".toList) :=
  ⟨⟨by decide, by decide, by decide⟩,
   (c10_changelog_insert_amended "use_x".toList
      ["# C\n".toList, "\n".toList, "x1\n".toList, "x2\n".toList, "x3\n".toList,
       "## [Unreleased] - \n".toList, "\n".toList, "### New Functions\n".toList,
       "\n".toList, "- `old`\n".toList] (by decide) (by decide)).2.1 (by decide)⟩

end LeptosUseDocs
